import Mathlib

/-!
Verification of the conveyor-belt production-line simulation (`simulation.py`).

The Python program is embedded shallowly:

* `Item` mirrors the `Item` enum.
* A `Conveyor` owns a list of items and the configured length; the producer
  and consumer are external collaborators, so `Conveyor.tick` receives the
  produced item as an argument and returns the consumed one.  A failing
  `deque.pop` (empty belt) and a failing slot-count assertion are both
  rendered as `none`.
* `Workstation` holds its slot index plus the per-tick `busy` flag and
  threads the belt list explicitly.
* A worker's hands are Python lists that can in principle receive the
  `None` sentinel returned by a busy `Workstation.take`; hands are therefore
  `List (Option Item)` where `none` models Python's `None`.
* `Simulator.tick` advances the conveyor, resets the stations and runs every
  top worker before its paired bottom worker, station by station.
-/

set_option maxHeartbeats 1000000

namespace ConveyorSim

inductive Item : Type
  | A : Item
  | B : Item
  | PRODUCT : Item
  | EMPTY : Item
  deriving DecidableEq, Repr

/-- The conveyor belt: a fixed configured length `len` and the list of
items currently on it (index 0 is the producer end). -/
structure Conveyor : Type where
  len : Nat
  items : List Item
  deriving DecidableEq, Repr

/-- `Conveyor.tick`: pop the tail item (consumed), insert the produced item
at the head, then assert the slot count.  `none` models the `IndexError`
raised by `pop` on an empty deque, or the `assert` firing. -/
def Conveyor.tick (c : Conveyor) (produced : Item) : Option (Conveyor × Item) :=
  match c.items.getLast? with
  | none => none
  | some consumed =>
    let newItems := produced :: c.items.dropLast
    if newItems.length = c.len then
      some ({ c with items := newItems }, consumed)
    else
      none

/-- `Conveyor.peek(i)`: the item at position `i` without removing it. -/
def Conveyor.peek (items : List Item) (i : Nat) : Item :=
  items.getD i Item.EMPTY

/-- `Conveyor.take(i)`: return the item at position `i` and leave the slot
`EMPTY` (the slot is overwritten even when it already was `EMPTY`). -/
def Conveyor.take (items : List Item) (i : Nat) : Item × List Item :=
  (items.getD i Item.EMPTY, items.set i Item.EMPTY)

/-- `Conveyor.put(i, item)`: refuse if the slot is occupied, otherwise store
the item and report success. -/
def Conveyor.put (items : List Item) (i : Nat) (item : Item) : Bool × List Item :=
  if items.getD i Item.EMPTY ≠ Item.EMPTY then
    (false, items)
  else
    (true, items.set i item)

/-- A workstation: the conveyor position it wraps and its per-tick `busy`
flag. -/
structure Workstation : Type where
  pos : Nat
  busy : Bool
  deriving DecidableEq, Repr

/-- `Workstation.tick`: clear the busy flag. -/
def Workstation.tick (ws : Workstation) : Workstation :=
  { ws with busy := false }

/-- `Workstation.peek`: forward to the conveyor, ignoring the busy flag. -/
def Workstation.peek (ws : Workstation) (belt : List Item) : Item :=
  Conveyor.peek belt ws.pos

/-- `Workstation.take`: `none` when busy (the contention sentinel, Python's
`None`); otherwise mark busy and forward to `Conveyor.take`. -/
def Workstation.take (ws : Workstation) (belt : List Item) :
    Option Item × Workstation × List Item :=
  if ws.busy then
    (none, ws, belt)
  else
    let r := Conveyor.take belt ws.pos
    (some r.1, { ws with busy := true }, r.2)

/-- `Workstation.put`: fail when busy; otherwise forward to `Conveyor.put`
and become busy only if that put succeeded. -/
def Workstation.put (ws : Workstation) (belt : List Item) (item : Item) :
    Bool × Workstation × List Item :=
  if ws.busy then
    (false, ws, belt)
  else
    let r := Conveyor.put belt ws.pos item
    (r.1, if r.1 then { ws with busy := true } else ws, r.2)

/-- A worker's mutable state: the hands (a Python list that in principle can
hold `None`, modelled by `none`), the assembly-time constant and the build
countdown (`0` is the idle sentinel). -/
structure WorkerSt : Type where
  hands : List (Option Item)
  assembly_time : Nat
  steps_remaining : Nat
  deriving DecidableEq, Repr

/-- `Worker.have_product`. -/
def WorkerSt.have_product (w : WorkerSt) : Bool :=
  (some Item.PRODUCT) ∈ w.hands

/-- `Worker.need_a`. -/
def WorkerSt.need_a (w : WorkerSt) : Bool :=
  (some Item.A) ∉ w.hands

/-- `Worker.need_b`. -/
def WorkerSt.need_b (w : WorkerSt) : Bool :=
  (some Item.B) ∉ w.hands

/-- `Worker.need_a_and_b`. -/
def WorkerSt.need_a_and_b (w : WorkerSt) : Bool :=
  w.need_a && w.need_b

/-- `Worker.can_build`. -/
def WorkerSt.can_build (w : WorkerSt) : Bool :=
  (some Item.PRODUCT) ∉ w.hands ∧ (some Item.A) ∈ w.hands ∧ (some Item.B) ∈ w.hands

/-- `Worker.tick_build`: enter the build sequence, complete it on the last
step, or count down.  `List.erase` matches Python's `list.remove` at every
call site (the removed element is present there). -/
def Worker.tick_build (w : WorkerSt) : WorkerSt :=
  if w.steps_remaining = 0 then
    { w with steps_remaining := w.assembly_time }
  else if w.steps_remaining = 1 then
    { w with
      hands := ((w.hands.erase (some Item.A)).erase (some Item.B)) ++ [some Item.PRODUCT],
      steps_remaining := 0 }
  else
    { w with steps_remaining := w.steps_remaining - 1 }

/-- `Worker.tick`: the priority-ordered branch (deposit product / acquire
components), followed by the unconditional build-progress check. -/
def Worker.tick (w : WorkerSt) (ws : Workstation) (belt : List Item) :
    WorkerSt × Workstation × List Item :=
  let step :=
    if w.have_product then
      let r := Workstation.put ws belt Item.PRODUCT
      if r.1 then
        ({ w with hands := w.hands.erase (some Item.PRODUCT) }, r.2.1, r.2.2)
      else
        (w, r.2.1, r.2.2)
    else if w.need_a_and_b then
      if Workstation.peek ws belt ∈ [Item.A, Item.B] then
        let r := Workstation.take ws belt
        ({ w with hands := w.hands ++ [r.1] }, r.2.1, r.2.2)
      else
        (w, ws, belt)
    else if w.need_a then
      if Workstation.peek ws belt ∈ [Item.A] then
        let r := Workstation.take ws belt
        ({ w with hands := w.hands ++ [r.1] }, r.2.1, r.2.2)
      else
        (w, ws, belt)
    else if w.need_b then
      if Workstation.peek ws belt ∈ [Item.B] then
        let r := Workstation.take ws belt
        ({ w with hands := w.hands ++ [r.1] }, r.2.1, r.2.2)
      else
        (w, ws, belt)
    else
      (w, ws, belt)
  if step.1.can_build then
    (Worker.tick_build step.1, step.2.1, step.2.2)
  else
    step

/-- The consumer: the output deque (`appendleft`, so newest first) and the
tally counter. -/
structure Consumer : Type where
  output : List Item
  counter : Item → Nat

/-- `Consumer.consume`. -/
def Consumer.consume (c : Consumer) (item : Item) : Consumer :=
  { output := item :: c.output,
    counter := fun x => if x = item then c.counter x + 1 else c.counter x }

/-- `Consumer.get_count` (specialised to one item kind). -/
def Consumer.get_count (c : Consumer) (item : Item) : Nat :=
  c.counter item

/-- The whole simulator state: conveyor, stations, the two parallel worker
lists and the consumer. -/
structure SimState : Type where
  conveyor : Conveyor
  stations : List Workstation
  top_workers : List WorkerSt
  bottom_workers : List WorkerSt
  consumer : Consumer

/-- The worker-processing loop of `Simulator.tick`: for each station in
ascending order, tick the top worker then the bottom worker, threading the
shared belt and the station list through every call. -/
def workersPhase : List WorkerSt → List WorkerSt → List Workstation → List Item →
    List WorkerSt × List WorkerSt × List Workstation × List Item
  | t :: ts, b :: bs, ws :: wss, belt =>
    let r1 := Worker.tick t ws belt
    let r2 := Worker.tick b r1.2.1 r1.2.2
    let rest := workersPhase ts bs wss r2.2.2
    (r1.1 :: rest.1, r2.1 :: rest.2.1, r2.2.1 :: rest.2.2.1, rest.2.2.2)
  | _, _, _, belt => ([], [], [], belt)

/-- `Simulator.tick`: advance the conveyor (consume + produce), reset every
station's busy flag, then run the worker loop.  `none` propagates a
conveyor-tick failure. -/
def Simulator.tick (s : SimState) (produced : Item) : Option SimState :=
  match s.conveyor.tick produced with
  | none => none
  | some (cv, consumed) =>
    let cs := s.consumer.consume consumed
    let stations1 := s.stations.map Workstation.tick
    let r := workersPhase s.top_workers s.bottom_workers stations1 cv.items
    some { conveyor := { cv with items := r.2.2.2 },
           stations := r.2.2.1,
           top_workers := r.1,
           bottom_workers := r.2.1,
           consumer := cs }

/-- `Simulator.run`: one `tick` per produced item, in sequence. -/
def Simulator.run : SimState → List Item → Option SimState
  | s, [] => some s
  | s, p :: ps =>
    match Simulator.tick s p with
    | none => none
    | some s2 => Simulator.run s2 ps

/-- A fresh worker (`Worker.__init__` with the default assembly time). -/
def Worker.init : WorkerSt :=
  { hands := [], assembly_time := 3, steps_remaining := 0 }

/-- `Simulator.__init__`: a length-3 conveyor of empty slots, one station
per slot, two fresh workers per station, an empty consumer. -/
def Simulator.init : SimState :=
  { conveyor := { len := 3, items := List.replicate 3 Item.EMPTY },
    stations := (List.range 3).map (fun i => { pos := i, busy := false }),
    top_workers := List.replicate 3 Worker.init,
    bottom_workers := List.replicate 3 Worker.init,
    consumer := { output := [], counter := fun _ => 0 } }

/-- States reachable from the initial configuration by `Simulator.tick`. -/
inductive Reachable : SimState → Prop
  | init : Reachable Simulator.init
  | step {s s' : SimState} {p : Item} :
      Reachable s → Simulator.tick s p = some s' → Reachable s'

/-! ### Auxiliary notions used to state the claims -/

/-- One belt access requested from a workstation: a take, or a put of a
given item. -/
inductive StationOp : Type
  | takeOp : StationOp
  | putOp : Item → StationOp
  deriving DecidableEq, Repr

/-- Run a sequence of take/put calls against one workstation between two
`Workstation.tick`s, recording for each call whether it succeeded (a take
succeeds when it returns an item rather than the busy sentinel `none`; a
put succeeds when it returns `true`). -/
def runOps : Workstation → List Item → List StationOp → List Bool
  | _, _, [] => []
  | ws, belt, StationOp.takeOp :: rest =>
    let r := Workstation.take ws belt
    r.1.isSome :: runOps r.2.1 r.2.2 rest
  | ws, belt, StationOp.putOp it :: rest =>
    let r := Workstation.put ws belt it
    r.1 :: runOps r.2.1 r.2.2 rest

/-- At most one `true` in the list, and nothing but `false` after it. -/
def atMostOneSuccess : List Bool → Bool
  | [] => true
  | true :: rest => rest.all (fun b => !b)
  | false :: rest => atMostOneSuccess rest

/-- Drive a conveyor with no workers acting: one `Conveyor.tick` per
produced item, feeding whatever falls off to the consumer. -/
def beltRun : Conveyor → Consumer → List Item → Option (Conveyor × Consumer)
  | cv, cs, [] => some (cv, cs)
  | cv, cs, p :: ps =>
    match cv.tick p with
    | none => none
    | some (cv2, consumed) => beltRun cv2 (cs.consume consumed) ps

/-- Iterate `Worker.tick` a given number of times against one station. -/
def Worker.tickN : Nat → WorkerSt → Workstation → List Item → WorkerSt × Workstation × List Item
  | 0, w, ws, belt => (w, ws, belt)
  | n + 1, w, ws, belt =>
    let r := Worker.tick w ws belt
    Worker.tickN n r.1 r.2.1 r.2.2

/-- Local view of `Workstation.take`: the station's busy flag and the one
slot it wraps. -/
def Workstation.takeLocal (busy : Bool) (slot : Item) : Option Item × Bool × Item :=
  if busy then (none, busy, slot) else (some slot, true, Item.EMPTY)

/-- Local view of `Workstation.put`. -/
def Workstation.putLocal (busy : Bool) (slot : Item) (item : Item) : Bool × Bool × Item :=
  if busy then (false, busy, slot)
  else if slot ≠ Item.EMPTY then (false, busy, slot)
  else (true, true, item)

/-- Local view of `Worker.tick`: the worker only ever touches its own
station's busy flag and slot. -/
def Worker.tickLocal (w : WorkerSt) (busy : Bool) (slot : Item) : WorkerSt × Bool × Item :=
  let step :=
    if w.have_product then
      let r := Workstation.putLocal busy slot Item.PRODUCT
      if r.1 then
        ({ w with hands := w.hands.erase (some Item.PRODUCT) }, r.2.1, r.2.2)
      else
        (w, r.2.1, r.2.2)
    else if w.need_a_and_b then
      if slot ∈ [Item.A, Item.B] then
        let r := Workstation.takeLocal busy slot
        ({ w with hands := w.hands ++ [r.1] }, r.2.1, r.2.2)
      else
        (w, busy, slot)
    else if w.need_a then
      if slot ∈ [Item.A] then
        let r := Workstation.takeLocal busy slot
        ({ w with hands := w.hands ++ [r.1] }, r.2.1, r.2.2)
      else
        (w, busy, slot)
    else if w.need_b then
      if slot ∈ [Item.B] then
        let r := Workstation.takeLocal busy slot
        ({ w with hands := w.hands ++ [r.1] }, r.2.1, r.2.2)
      else
        (w, busy, slot)
    else
      (w, busy, slot)
  if step.1.can_build then
    (Worker.tick_build step.1, step.2.1, step.2.2)
  else
    step

/-- One station's share of the worker-processing phase: the top (front)
worker acts first, then the bottom (back) worker, on the busy flag reset
at the start of the phase. -/
def stationLocal (t b : WorkerSt) (busy : Bool) (slot : Item) :
    WorkerSt × WorkerSt × Bool × Item :=
  let r1 := Worker.tickLocal t busy slot
  let r2 := Worker.tickLocal b r1.2.1 r1.2.2
  (r1.1, r2.1, r2.2.1, r2.2.2)

/-- The worker-processing phase as independent per-station updates. -/
def workersPhaseLocal : List WorkerSt → List WorkerSt → List Bool → List Item →
    List WorkerSt × List WorkerSt × List Bool × List Item
  | t :: ts, b :: bs, bz :: bzs, sl :: sls =>
    let r := stationLocal t b bz sl
    let rest := workersPhaseLocal ts bs bzs sls
    (r.1 :: rest.1, r.2.1 :: rest.2.1, r.2.2.1 :: rest.2.2.1, r.2.2.2 :: rest.2.2.2)
  | _, _, _, sls => ([], [], [], sls)

/-- The hand states a worker can actually be in: empty, one component, both
components (in either acquisition order), or the lone finished product;
the countdown is non-sentinel only while both components are held. -/
def WorkerInv (w : WorkerSt) : Prop :=
  (w.hands = [] ∨ w.hands = [some Item.A] ∨ w.hands = [some Item.B] ∨
   w.hands = [some Item.A, some Item.B] ∨ w.hands = [some Item.B, some Item.A] ∨
   w.hands = [some Item.PRODUCT]) ∧
  (w.steps_remaining ≠ 0 → some Item.A ∈ w.hands ∧ some Item.B ∈ w.hands)

/-- Mid-phase station invariant: a busy station's slot holds nothing a
worker would acquire (it was just emptied by a take, or filled with a
product by a put). -/
def StInvL (busy : Bool) (slot : Item) : Prop :=
  busy = true → slot = Item.EMPTY ∨ slot = Item.PRODUCT

/-- The per-worker property claimed by the spec: hands hold only component
or product tokens (never Python's `None` sentinel, never `EMPTY`), a
product is held alone, at most one of each component kind, and the
countdown is non-sentinel only while both components are held. -/
def WorkerClaim (w : WorkerSt) : Prop :=
  (∀ x ∈ w.hands, x = some Item.A ∨ x = some Item.B ∨ x = some Item.PRODUCT) ∧
  (some Item.PRODUCT ∈ w.hands → w.hands = [some Item.PRODUCT]) ∧
  w.hands.count (some Item.A) ≤ 1 ∧
  w.hands.count (some Item.B) ≤ 1 ∧
  (w.steps_remaining ≠ 0 → some Item.A ∈ w.hands ∧ some Item.B ∈ w.hands)

/-- Structural well-formedness of a simulator state: the belt has the
configured (positive) length, there is one station per slot wrapping that
slot, and one top and one bottom worker per station. -/
def WF (s : SimState) : Prop :=
  s.conveyor.items.length = s.conveyor.len ∧
  s.stations.length = s.conveyor.len ∧
  s.top_workers.length = s.conveyor.len ∧
  s.bottom_workers.length = s.conveyor.len ∧
  0 < s.conveyor.len ∧
  (∀ i (h : i < s.stations.length), (s.stations.get ⟨i, h⟩).pos = i)

/-- The inductive simulator invariant. -/
def SimInv (s : SimState) : Prop :=
  WF s ∧ (∀ w ∈ s.top_workers, WorkerInv w) ∧ (∀ w ∈ s.bottom_workers, WorkerInv w)

/-! ### List helper lemmas -/

lemma getD_set_self {α : Type} (l : List α) (i : Nat) (v d : α) (h : i < l.length) :
    (l.set i v).getD i d = v := by
  simp [List.getD_eq_getElem?_getD, List.getElem?_set_self h]

lemma getD_set_ne {α : Type} (l : List α) (i j : Nat) (v d : α) (h : j ≠ i) :
    (l.set i v).getD j d = l.getD j d := by
  rw [List.getD_eq_getElem?_getD, List.getD_eq_getElem?_getD, List.getElem?_set,
    if_neg (fun hij => h hij.symm)]

lemma set_getD_self {α : Type} (l : List α) (i : Nat) (d : α) (h : i < l.length) :
    l.set i (l.getD i d) = l := by
  apply List.ext_getElem?
  intro n
  rw [List.getElem?_set]
  by_cases hin : i = n
  · subst hin
    rw [if_pos rfl, if_pos h, List.getD_eq_getElem l d h, List.getElem?_eq_getElem h]
  · rw [if_neg hin]

/-! ### Workstation arbitration (claims C1, C2, C6) -/

lemma runOps_busy (ops : List StationOp) :
    ∀ (ws : Workstation) (belt : List Item), ws.busy = true →
      runOps ws belt ops = List.replicate ops.length false := by
  induction ops with
  | nil => intro ws belt _; rfl
  | cons op rest ih =>
    intro ws belt h
    cases op with
    | takeOp =>
      simp [runOps, Workstation.take, h, ih ws belt h, List.replicate_succ]
    | putOp it =>
      simp [runOps, Workstation.put, h, ih ws belt h, List.replicate_succ]

lemma all_not_replicate_false (n : Nat) :
    (List.replicate n false).all (fun b => !b) = true := by
  simp [List.all_eq_true]

/-- **C1.** Between two `Workstation.tick`s, whatever mixed sequence of
`take`/`put` calls the two workers make and whatever the belt holds, at most
one call succeeds, and after a success every later take returns the busy
sentinel and every later put fails. -/
theorem workstation_single_access (ws : Workstation) (belt : List Item)
    (ops : List StationOp) (hb : ws.busy = false) :
    atMostOneSuccess (runOps ws belt ops) = true := by
  induction ops generalizing ws belt with
  | nil => rfl
  | cons op rest ih =>
    cases op with
    | takeOp =>
      simp only [runOps, Workstation.take, hb, if_neg (by simp : ¬(false = true)),
        Option.isSome_some, atMostOneSuccess]
      rw [runOps_busy rest _ _ rfl]
      exact all_not_replicate_false _
    | putOp it =>
      by_cases hocc : belt.getD ws.pos Item.EMPTY ≠ Item.EMPTY
      · have hput : Conveyor.put belt ws.pos it = (false, belt) := by
          unfold Conveyor.put
          rw [if_pos hocc]
        simp only [runOps, Workstation.put, hb, if_neg (by simp : ¬(false = true)), hput,
          if_neg (by simp : ¬(false = true)), atMostOneSuccess]
        exact ih ws belt hb
      · push_neg at hocc
        have hput : Conveyor.put belt ws.pos it = (true, belt.set ws.pos it) := by
          unfold Conveyor.put
          rw [if_neg (not_not_intro hocc)]
        simp only [runOps, Workstation.put, hb, if_neg (by simp : ¬(false = true)), hput,
          if_pos rfl, atMostOneSuccess]
        rw [runOps_busy rest _ _ rfl]
        exact all_not_replicate_false _

/-- Witness for C1 at a concrete station, belt and call sequence. -/
theorem workstation_single_access_witness :
    atMostOneSuccess (runOps { pos := 0, busy := false } [Item.A]
      [StationOp.takeOp, StationOp.takeOp, StationOp.putOp Item.B, StationOp.takeOp]) = true :=
  workstation_single_access _ _ _ rfl

/-- **C2 counterexample.** After the front worker's successful take of the
A on the slot, the back worker's `peek` shows the cleared slot (`EMPTY`),
not the claimed pre-take contents (`A`). -/
theorem front_take_clears_back_peek :
    (Workstation.take { pos := 0, busy := false } [Item.A]).1 = some Item.A ∧
    Workstation.peek (Workstation.take { pos := 0, busy := false } [Item.A]).2.1
      (Workstation.take { pos := 0, busy := false } [Item.A]).2.2 = Item.EMPTY ∧
    Item.EMPTY ≠ Item.A := by
  refine ⟨rfl, rfl, by decide⟩

/-- **C2 (amended).** With A on the slot and the station not busy, the
front worker's take succeeds and returns A; a later take in the same tick
returns the busy sentinel; and the back worker's peek after the front's
take shows the cleared slot (`EMPTY`), not the pre-take contents. -/
theorem front_take_back_busy (ws : Workstation) (belt : List Item)
    (hb : ws.busy = false) (hA : Workstation.peek ws belt = Item.A) :
    (Workstation.take ws belt).1 = some Item.A ∧
    (Workstation.take (Workstation.take ws belt).2.1 (Workstation.take ws belt).2.2).1 = none ∧
    Workstation.peek (Workstation.take ws belt).2.1 (Workstation.take ws belt).2.2 =
      Item.EMPTY := by
  have hlt : ws.pos < belt.length := by
    by_contra hge
    push_neg at hge
    have hE : Workstation.peek ws belt = Item.EMPTY := by
      simp [Workstation.peek, Conveyor.peek, List.getD_eq_getElem?_getD,
        List.getElem?_eq_none hge]
    rw [hA] at hE
    exact absurd hE (by decide)
  have hget : belt[ws.pos]?.getD Item.EMPTY = Item.A := by
    rw [← List.getD_eq_getElem?_getD]
    exact hA
  refine ⟨?_, ?_, ?_⟩
  · simp [Workstation.take, hb, Conveyor.take, hget]
  · simp [Workstation.take, hb]
  · simp [Workstation.take, hb, Conveyor.take, Workstation.peek, Conveyor.peek,
      List.getElem?_set_self hlt]

/-- Witness for C2's amended statement at a concrete station and belt. -/
theorem front_take_back_busy_witness :
    (Workstation.take { pos := 0, busy := false } [Item.A]).1 = some Item.A ∧
    (Workstation.take (Workstation.take { pos := 0, busy := false } [Item.A]).2.1
      (Workstation.take { pos := 0, busy := false } [Item.A]).2.2).1 = none ∧
    Workstation.peek (Workstation.take { pos := 0, busy := false } [Item.A]).2.1
      (Workstation.take { pos := 0, busy := false } [Item.A]).2.2 = Item.EMPTY :=
  front_take_back_busy { pos := 0, busy := false } [Item.A] rfl (by decide)

/-- **C6.** A non-busy station whose slot is occupied refuses a put: the
call returns failure, belt and busy flag are unchanged (so a take by the
other worker would still succeed), and in general a put marks the station
busy exactly when the underlying conveyor put succeeded. -/
theorem workstation_put_occupied (ws : Workstation) (belt : List Item) (item : Item)
    (hb : ws.busy = false) (hocc : Conveyor.peek belt ws.pos ≠ Item.EMPTY) :
    Workstation.put ws belt item = (false, ws, belt) ∧
    (Workstation.take ws belt).1 = some (Conveyor.peek belt ws.pos) ∧
    (∀ (ws2 : Workstation) (belt2 : List Item) (it : Item), ws2.busy = false →
      (Workstation.put ws2 belt2 it).2.1.busy = (Workstation.put ws2 belt2 it).1) := by
  have hocc' : ¬belt[ws.pos]?.getD Item.EMPTY = Item.EMPTY := by
    rw [← List.getD_eq_getElem?_getD]
    exact hocc
  refine ⟨?_, ?_, ?_⟩
  · simp [Workstation.put, hb, Conveyor.put, hocc']
  · simp [Workstation.take, hb, Conveyor.take, Conveyor.peek]
  · intro ws2 belt2 it hb2
    by_cases hc : (Conveyor.put belt2 ws2.pos it).1 = true
    · simp [Workstation.put, hb2, hc]
    · simp only [Bool.not_eq_true] at hc
      simp [Workstation.put, hb2, hc]

/-- Witness for C6 at a concrete station, belt and item. -/
theorem workstation_put_occupied_witness :
    Workstation.put { pos := 0, busy := false } [Item.A] Item.B =
      (false, { pos := 0, busy := false }, [Item.A]) :=
  (workstation_put_occupied { pos := 0, busy := false } [Item.A] Item.B rfl (by decide)).1

/-! ### Conveyor take (claim C7) -/

/-- **C7.** For every valid slot index: a take of a non-empty slot returns
the item and clears exactly that slot; a take of an empty slot returns
`EMPTY` and leaves the belt unchanged. -/
theorem conveyor_take_spec (items : List Item) (i : Nat) (h : i < items.length) :
    (Conveyor.take items i).1 = items[i] ∧
    (Conveyor.take items i).2.getD i Item.EMPTY = Item.EMPTY ∧
    (∀ j, j ≠ i → (Conveyor.take items i).2.getD j Item.EMPTY = items.getD j Item.EMPTY) ∧
    (items[i] = Item.EMPTY → (Conveyor.take items i).2 = items) := by
  refine ⟨?_, ?_, ?_, ?_⟩
  · simp [Conveyor.take, List.getElem?_eq_getElem h]
  · exact getD_set_self _ _ _ _ h
  · intro j hj
    exact getD_set_ne _ _ _ _ _ hj
  · intro hE
    show items.set i Item.EMPTY = items
    have h2 : items.getD i Item.EMPTY = Item.EMPTY := by
      rw [List.getD_eq_getElem items Item.EMPTY h]
      exact hE
    have h3 := set_getD_self items i Item.EMPTY h
    rw [h2] at h3
    exact h3

/-- Witness for C7 on a concrete two-slot belt. -/
theorem conveyor_take_spec_witness :
    (Conveyor.take [Item.A, Item.EMPTY] 0).1 = Item.A ∧
    (Conveyor.take [Item.A, Item.EMPTY] 0).2 = [Item.EMPTY, Item.EMPTY] ∧
    (Conveyor.take [Item.A, Item.EMPTY] 1).2 = [Item.A, Item.EMPTY] := by
  refine ⟨by simpa using (conveyor_take_spec [Item.A, Item.EMPTY] 0 (by decide)).1, by decide,
    (conveyor_take_spec [Item.A, Item.EMPTY] 1 (by decide)).2.2.2 (by decide)⟩

/-! ### Belt-only scenario (claim C8) -/

/-- **C8.** Length-3 conveyor, no workers, producer sequence A, B, Empty,
Empty: after 1 tick slot 0 holds A; after 2 ticks slot 0 holds B and slot 1
holds A; after 3 ticks A sits in slot 2; after 4 ticks A has fallen off,
the consumer has received it and its tally for A is one. -/
theorem belt_scenario :
    (beltRun { len := 3, items := List.replicate 3 Item.EMPTY } { output := [], counter := fun _ => 0 }
        [Item.A]).map (fun r => r.1.items) = some [Item.A, Item.EMPTY, Item.EMPTY] ∧
    (beltRun { len := 3, items := List.replicate 3 Item.EMPTY } { output := [], counter := fun _ => 0 }
        [Item.A, Item.B]).map (fun r => r.1.items) = some [Item.B, Item.A, Item.EMPTY] ∧
    (beltRun { len := 3, items := List.replicate 3 Item.EMPTY } { output := [], counter := fun _ => 0 }
        [Item.A, Item.B, Item.EMPTY]).map (fun r => r.1.items) =
      some [Item.EMPTY, Item.B, Item.A] ∧
    (beltRun { len := 3, items := List.replicate 3 Item.EMPTY } { output := [], counter := fun _ => 0 }
        [Item.A, Item.B, Item.EMPTY, Item.EMPTY]).map
        (fun r => (r.1.items, r.2.output, r.2.get_count Item.A)) =
      some ([Item.EMPTY, Item.EMPTY, Item.B], [Item.A, Item.EMPTY, Item.EMPTY, Item.EMPTY], 1) := by
  refine ⟨rfl, rfl, rfl, rfl⟩

/-! ### Worker assembly (claim C3) -/

lemma tick_holding_both (w : WorkerSt) (ws : Workstation) (belt : List Item)
    (hh : w.hands = [some Item.A, some Item.B] ∨ w.hands = [some Item.B, some Item.A]) :
    Worker.tick w ws belt = (Worker.tick_build w, ws, belt) := by
  rcases hh with hh | hh <;>
    simp [Worker.tick, WorkerSt.have_product, WorkerSt.need_a_and_b, WorkerSt.need_a,
      WorkerSt.need_b, WorkerSt.can_build, hh]

lemma tick_build_decrement (w : WorkerSt) (h2 : 2 ≤ w.steps_remaining) :
    Worker.tick_build w = { w with steps_remaining := w.steps_remaining - 1 } := by
  unfold Worker.tick_build
  rw [if_neg (by omega), if_neg (by omega)]

lemma tick_build_last (w : WorkerSt) (h1 : w.steps_remaining = 1) :
    Worker.tick_build w =
      { w with
        hands := ((w.hands.erase (some Item.A)).erase (some Item.B)) ++ [some Item.PRODUCT],
        steps_remaining := 0 } := by
  unfold Worker.tick_build
  rw [if_neg (by omega), if_pos h1]

lemma tickN_build_partial :
    ∀ (k : Nat) (w : WorkerSt) (ws : Workstation) (belt : List Item),
    (w.hands = [some Item.A, some Item.B] ∨ w.hands = [some Item.B, some Item.A]) →
    k < w.steps_remaining →
    Worker.tickN k w ws belt = ({ w with steps_remaining := w.steps_remaining - k }, ws, belt) := by
  intro k
  induction k with
  | zero =>
    intro w ws belt _ _
    simp [Worker.tickN]
  | succ m ih =>
    intro w ws belt hh hk
    rw [Worker.tickN, tick_holding_both w ws belt hh, tick_build_decrement w (by omega)]
    rw [show w.steps_remaining - (m + 1) = w.steps_remaining - 1 - m by omega]
    exact ih _ ws belt hh (show m < w.steps_remaining - 1 by omega)

lemma tickN_build_complete :
    ∀ (n : Nat) (w : WorkerSt) (ws : Workstation) (belt : List Item),
    (w.hands = [some Item.A, some Item.B] ∨ w.hands = [some Item.B, some Item.A]) →
    w.steps_remaining = n + 1 →
    Worker.tickN (n + 1) w ws belt =
      ({ w with hands := [some Item.PRODUCT], steps_remaining := 0 }, ws, belt) := by
  intro n
  induction n with
  | zero =>
    intro w ws belt hh hs
    rw [Worker.tickN, tick_holding_both w ws belt hh, tick_build_last w hs]
    rcases hh with hh | hh <;> simp [Worker.tickN, hh, List.erase_cons]
  | succ m ih =>
    intro w ws belt hh hs
    rw [Worker.tickN, tick_holding_both w ws belt hh, tick_build_decrement w (by omega)]
    rw [ih _ ws belt (by simpa using hh) (by simp [hs])]

lemma tick_acquire_b (w : WorkerSt) (ws : Workstation) (belt : List Item)
    (hh : w.hands = [some Item.A]) (hidle : w.steps_remaining = 0)
    (hb : ws.busy = false) (hslot : Workstation.peek ws belt = Item.B) :
    (Worker.tick w ws belt).1 =
      { hands := [some Item.A, some Item.B], assembly_time := w.assembly_time,
        steps_remaining := w.assembly_time } := by
  have hpk : belt[ws.pos]?.getD Item.EMPTY = Item.B := by
    rw [← List.getD_eq_getElem?_getD]
    exact hslot
  simp [Worker.tick, WorkerSt.have_product, WorkerSt.need_a_and_b, WorkerSt.need_a,
    WorkerSt.need_b, WorkerSt.can_build, hh, Workstation.peek, Workstation.take, hb,
    Conveyor.take, Conveyor.peek, Worker.tick_build, hidle, hpk]

/-- **C3.** A worker holding exactly A (idle countdown) that acquires B
from its station starts the build that same tick (countdown set to
`assembly_time`); during the following ticks no belt interaction happens
and the hands still hold both components; after exactly `assembly_time`
further ticks the hands hold exactly one product and the countdown is back
at the idle sentinel.  (Every worker the simulator builds has
`assembly_time = 3 > 0`.) -/
theorem worker_assembly (w : WorkerSt) (ws : Workstation) (belt : List Item)
    (hh : w.hands = [some Item.A]) (hidle : w.steps_remaining = 0)
    (hT : 0 < w.assembly_time) (hb : ws.busy = false)
    (hslot : Workstation.peek ws belt = Item.B) :
    (Worker.tick w ws belt).1.hands = [some Item.A, some Item.B] ∧
    (Worker.tick w ws belt).1.steps_remaining = w.assembly_time ∧
    (∀ (k : Nat) (ws2 : Workstation) (belt2 : List Item), k < w.assembly_time →
      (Worker.tickN k (Worker.tick w ws belt).1 ws2 belt2).1.hands =
        [some Item.A, some Item.B] ∧
      (Worker.tickN k (Worker.tick w ws belt).1 ws2 belt2).2.1 = ws2 ∧
      (Worker.tickN k (Worker.tick w ws belt).1 ws2 belt2).2.2 = belt2) ∧
    (∀ (ws2 : Workstation) (belt2 : List Item),
      (Worker.tickN w.assembly_time (Worker.tick w ws belt).1 ws2 belt2).1 =
        { hands := [some Item.PRODUCT], assembly_time := w.assembly_time,
          steps_remaining := 0 }) := by
  have hacq := tick_acquire_b w ws belt hh hidle hb hslot
  refine ⟨by rw [hacq], by rw [hacq], ?_, ?_⟩
  · intro k ws2 belt2 hk
    rw [hacq, tickN_build_partial k _ ws2 belt2 (by simp) (by simpa using hk)]
    exact ⟨rfl, rfl, rfl⟩
  · intro ws2 belt2
    obtain ⟨m, hm⟩ : ∃ m, w.assembly_time = m + 1 :=
      ⟨w.assembly_time - 1, by omega⟩
    rw [hacq, hm, tickN_build_complete m _ ws2 belt2 (by simp) (by simp)]

/-- Witness for C3 with the simulator's concrete worker parameters. -/
theorem worker_assembly_witness :
    (Worker.tick { hands := [some Item.A], assembly_time := 3, steps_remaining := 0 }
        { pos := 0, busy := false } [Item.B]).1.hands = [some Item.A, some Item.B] ∧
    (Worker.tickN 3
        (Worker.tick { hands := [some Item.A], assembly_time := 3, steps_remaining := 0 }
          { pos := 0, busy := false } [Item.B]).1
        { pos := 0, busy := false } [Item.EMPTY]).1 =
      { hands := [some Item.PRODUCT], assembly_time := 3, steps_remaining := 0 } := by
  have h := worker_assembly
    { hands := [some Item.A], assembly_time := 3, steps_remaining := 0 }
    { pos := 0, busy := false } [Item.B] rfl rfl (by decide) rfl (by decide)
  exact ⟨h.1, h.2.2.2 { pos := 0, busy := false } [Item.EMPTY]⟩

/-! ### Locality: a worker only touches its own station's slot -/

lemma getD_append_cons {α : Type} (pre : List α) (x : α) (l : List α) (d : α) :
    (pre ++ x :: l).getD pre.length d = x := by
  induction pre with
  | nil => rfl
  | cons a as ih => simpa using ih

lemma set_append_cons {α : Type} (pre : List α) (x v : α) (l : List α) :
    (pre ++ x :: l).set pre.length v = pre ++ v :: l := by
  induction pre with
  | nil => rfl
  | cons a as ih => simp [ih]

lemma set_getDn_self {α : Type} (l : List α) (p : Nat) (d : α) (h : p < l.length) :
    l.set p (l[p]?.getD d) = l := by
  rw [← List.getD_eq_getElem?_getD]
  exact set_getD_self l p d h

lemma set_getElem_self {α : Type} (l : List α) (p : Nat) (h : p < l.length) :
    l.set p l[p] = l := by
  have h2 := set_getD_self l p l[p] h
  rw [List.getD_eq_getElem l _ h] at h2
  exact h2

lemma put_bridge (p : Nat) (bz : Bool) (belt : List Item) (item : Item)
    (h : p < belt.length) :
    Workstation.put { pos := p, busy := bz } belt item =
      ((Workstation.putLocal bz (belt.getD p Item.EMPTY) item).1,
       { pos := p, busy := (Workstation.putLocal bz (belt.getD p Item.EMPTY) item).2.1 },
       belt.set p (Workstation.putLocal bz (belt.getD p Item.EMPTY) item).2.2) := by
  cases bz with
  | true => simp [Workstation.put, Workstation.putLocal, set_getDn_self belt p Item.EMPTY h]
  | false =>
    by_cases hocc : belt[p]?.getD Item.EMPTY = Item.EMPTY
    · simp [Workstation.put, Workstation.putLocal, Conveyor.put, hocc]
    · simp [Workstation.put, Workstation.putLocal, Conveyor.put, hocc,
        set_getDn_self belt p Item.EMPTY h]

lemma take_bridge (p : Nat) (bz : Bool) (belt : List Item) (h : p < belt.length) :
    Workstation.take { pos := p, busy := bz } belt =
      ((Workstation.takeLocal bz (belt.getD p Item.EMPTY)).1,
       { pos := p, busy := (Workstation.takeLocal bz (belt.getD p Item.EMPTY)).2.1 },
       belt.set p (Workstation.takeLocal bz (belt.getD p Item.EMPTY)).2.2) := by
  cases bz with
  | true => simp [Workstation.take, Workstation.takeLocal, set_getDn_self belt p Item.EMPTY h]
  | false => simp [Workstation.take, Workstation.takeLocal, Conveyor.take]

lemma tick_bridge (w : WorkerSt) (p : Nat) (bz : Bool) (belt : List Item)
    (h : p < belt.length) :
    Worker.tick w { pos := p, busy := bz } belt =
      ((Worker.tickLocal w bz (belt.getD p Item.EMPTY)).1,
       { pos := p, busy := (Worker.tickLocal w bz (belt.getD p Item.EMPTY)).2.1 },
       belt.set p (Worker.tickLocal w bz (belt.getD p Item.EMPTY)).2.2) := by
  have hpeek : Workstation.peek { pos := p, busy := bz } belt = belt.getD p Item.EMPTY := rfl
  unfold Worker.tick Worker.tickLocal
  rw [put_bridge p bz belt Item.PRODUCT h, take_bridge p bz belt h, hpeek]
  dsimp only
  split_ifs <;>
    simp_all [set_getDn_self belt p Item.EMPTY h, set_getElem_self belt p h]

lemma workersPhase_window :
    ∀ (ts bs : List WorkerSt) (wss : List Workstation) (pre rest : List Item),
    ts.length = wss.length → bs.length = wss.length → wss.length ≤ rest.length →
    (∀ i (hi : i < wss.length), (wss.get ⟨i, hi⟩).pos = pre.length + i) →
    workersPhase ts bs wss (pre ++ rest) =
      ((workersPhaseLocal ts bs (wss.map Workstation.busy) rest).1,
       (workersPhaseLocal ts bs (wss.map Workstation.busy) rest).2.1,
       List.zipWith (fun (st : Workstation) bz => { pos := st.pos, busy := bz }) wss
         (workersPhaseLocal ts bs (wss.map Workstation.busy) rest).2.2.1,
       pre ++ (workersPhaseLocal ts bs (wss.map Workstation.busy) rest).2.2.2) := by
  intro ts
  induction ts with
  | nil =>
    intro bs wss pre rest h1 h2 h3 h4
    cases wss with
    | cons st wss' => simp at h1
    | nil =>
      cases bs with
      | cons b bs' => simp at h2
      | nil => simp [workersPhase, workersPhaseLocal]
  | cons t ts ih =>
    intro bs wss pre rest h1 h2 h3 h4
    cases wss with
    | nil => simp at h1
    | cons st wss' =>
    cases bs with
    | nil => simp at h2
    | cons b bs' =>
    cases rest with
    | nil => simp at h3
    | cons sl sls =>
    obtain ⟨p, bz⟩ := st
    have hp : p = pre.length := by simpa using h4 0 (by simp)
    subst hp
    have h4' : ∀ (x : Item) i (hi : i < wss'.length),
        (wss'.get ⟨i, hi⟩).pos = (pre ++ [x]).length + i := by
      intro x i hi
      have h5 := h4 (i + 1) (by simpa using Nat.succ_lt_succ hi)
      simp only [List.get_cons_succ] at h5
      rw [h5, List.length_append]
      simp
      omega
    simp only [workersPhase, workersPhaseLocal, List.map_cons, stationLocal]
    rw [tick_bridge t pre.length bz (pre ++ sl :: sls) (by simp),
      getD_append_cons pre sl sls Item.EMPTY, set_append_cons]
    dsimp only
    rw [tick_bridge b pre.length ((Worker.tickLocal t bz sl).2.1)
        (pre ++ (Worker.tickLocal t bz sl).2.2 :: sls) (by simp),
      getD_append_cons pre _ sls Item.EMPTY, set_append_cons]
    dsimp only
    rw [show pre ++ (Worker.tickLocal b (Worker.tickLocal t bz sl).2.1
          (Worker.tickLocal t bz sl).2.2).2.2 :: sls
        = (pre ++ [(Worker.tickLocal b (Worker.tickLocal t bz sl).2.1
          (Worker.tickLocal t bz sl).2.2).2.2]) ++ sls by simp]
    rw [ih bs' wss'
      (pre ++ [(Worker.tickLocal b (Worker.tickLocal t bz sl).2.1
        (Worker.tickLocal t bz sl).2.2).2.2]) sls
      (by simpa using h1) (by simpa using h2) (by simpa using h3)
      (h4' _)]
    simp [List.append_assoc]

lemma map_busy_reset (l : List Workstation) :
    (l.map Workstation.tick).map Workstation.busy = List.replicate l.length false := by
  induction l with
  | nil => rfl
  | cons st l ih => simp [Workstation.tick, ih, List.replicate_succ]

lemma sim_tick_eq (s : SimState) (p : Item) (hwf : WF s) :
    ∃ consumed, s.conveyor.items.getLast? = some consumed ∧
    Simulator.tick s p = some
      { conveyor :=
          { len := s.conveyor.len,
            items := (workersPhaseLocal s.top_workers s.bottom_workers
              (List.replicate s.stations.length false) (p :: s.conveyor.items.dropLast)).2.2.2 },
        stations := List.zipWith (fun (st : Workstation) bz => { pos := st.pos, busy := bz })
          (s.stations.map Workstation.tick)
          (workersPhaseLocal s.top_workers s.bottom_workers
            (List.replicate s.stations.length false) (p :: s.conveyor.items.dropLast)).2.2.1,
        top_workers := (workersPhaseLocal s.top_workers s.bottom_workers
          (List.replicate s.stations.length false) (p :: s.conveyor.items.dropLast)).1,
        bottom_workers := (workersPhaseLocal s.top_workers s.bottom_workers
          (List.replicate s.stations.length false) (p :: s.conveyor.items.dropLast)).2.1,
        consumer := s.consumer.consume consumed } := by
  obtain ⟨hlen, hslen, htlen, hblen, hposlen, hpos⟩ := hwf
  have hne : s.conveyor.items ≠ [] := by
    intro h0
    rw [h0] at hlen
    simp at hlen
    omega
  refine ⟨s.conveyor.items.getLast hne, List.getLast?_eq_getLast _ hne, ?_⟩
  have htick : s.conveyor.tick p =
      some ({ len := s.conveyor.len, items := p :: s.conveyor.items.dropLast },
        s.conveyor.items.getLast hne) := by
    unfold Conveyor.tick
    rw [List.getLast?_eq_getLast _ hne]
    have hl : (p :: s.conveyor.items.dropLast).length = s.conveyor.len := by
      simp [List.length_dropLast]
      omega
    dsimp only
    rw [if_pos hl]
  have hwindow := workersPhase_window s.top_workers s.bottom_workers
    (s.stations.map Workstation.tick) [] (p :: s.conveyor.items.dropLast)
    (by simp [htlen, hslen]) (by simp [hblen, hslen])
    (by
      simp [hslen, List.length_dropLast]
      omega)
    (by
      intro i hi
      have hi' : i < s.stations.length := by simpa using hi
      have hget : ((s.stations.map Workstation.tick).get ⟨i, hi⟩) =
          Workstation.tick (s.stations.get ⟨i, hi'⟩) := by
        simp
      rw [hget]
      simpa [Workstation.tick] using hpos i hi')
  simp only [List.nil_append] at hwindow
  unfold Simulator.tick
  rw [htick]
  dsimp only
  rw [hwindow, map_busy_reset]

/-! ### The worker-state invariant is preserved -/

lemma tickLocal_inv (w : WorkerSt) (bz : Bool) (sl : Item)
    (hw : WorkerInv w) (hst : StInvL bz sl) :
    WorkerInv (Worker.tickLocal w bz sl).1 ∧
    StInvL (Worker.tickLocal w bz sl).2.1 (Worker.tickLocal w bz sl).2.2 := by
  obtain ⟨hhands, hsteps⟩ := hw
  rcases hhands with hh | hh | hh | hh | hh | hh
  · -- empty hands: the worker may take an A or a B
    have hs0 : w.steps_remaining = 0 := by
      by_contra hs
      have h2 := (hsteps hs).1
      rw [hh] at h2
      simp at h2
    cases sl <;> cases hbz : bz <;>
      first
        | exact absurd (hst hbz) (by decide)
        | simp [Worker.tickLocal, WorkerSt.have_product, WorkerSt.need_a_and_b,
            WorkerSt.need_a, WorkerSt.need_b, WorkerSt.can_build, Workstation.takeLocal,
            Workstation.putLocal, Worker.tick_build, WorkerInv, StInvL, hh, hs0, hbz]
  · -- holding A: the worker may take a B
    have hs0 : w.steps_remaining = 0 := by
      by_contra hs
      have h2 := (hsteps hs).2
      rw [hh] at h2
      simp at h2
    cases sl <;> cases hbz : bz <;>
      first
        | exact absurd (hst hbz) (by decide)
        | simp [Worker.tickLocal, WorkerSt.have_product, WorkerSt.need_a_and_b,
            WorkerSt.need_a, WorkerSt.need_b, WorkerSt.can_build, Workstation.takeLocal,
            Workstation.putLocal, Worker.tick_build, WorkerInv, StInvL, hh, hs0, hbz]
  · -- holding B: the worker may take an A
    have hs0 : w.steps_remaining = 0 := by
      by_contra hs
      have h2 := (hsteps hs).1
      rw [hh] at h2
      simp at h2
    cases sl <;> cases hbz : bz <;>
      first
        | exact absurd (hst hbz) (by decide)
        | simp [Worker.tickLocal, WorkerSt.have_product, WorkerSt.need_a_and_b,
            WorkerSt.need_a, WorkerSt.need_b, WorkerSt.can_build, Workstation.takeLocal,
            Workstation.putLocal, Worker.tick_build, WorkerInv, StInvL, hh, hs0, hbz]
  · -- holding A then B: pure build progress, the station is untouched
    have hno : Worker.tickLocal w bz sl = (Worker.tick_build w, bz, sl) := by
      simp [Worker.tickLocal, WorkerSt.have_product, WorkerSt.need_a_and_b,
        WorkerSt.need_a, WorkerSt.need_b, WorkerSt.can_build, hh]
    rw [hno]
    refine ⟨?_, hst⟩
    unfold Worker.tick_build
    split_ifs with h0 h1
    · exact ⟨by simp [hh], fun _ => by simp [hh]⟩
    · refine ⟨by simp [hh, List.erase_cons], fun hcontra => absurd rfl hcontra⟩
    · exact ⟨by simp [hh], fun _ => by simp [hh]⟩
  · -- holding B then A: pure build progress, the station is untouched
    have hno : Worker.tickLocal w bz sl = (Worker.tick_build w, bz, sl) := by
      simp [Worker.tickLocal, WorkerSt.have_product, WorkerSt.need_a_and_b,
        WorkerSt.need_a, WorkerSt.need_b, WorkerSt.can_build, hh]
    rw [hno]
    refine ⟨?_, hst⟩
    unfold Worker.tick_build
    split_ifs with h0 h1
    · exact ⟨by simp [hh], fun _ => by simp [hh]⟩
    · refine ⟨by simp [hh, List.erase_cons], fun hcontra => absurd rfl hcontra⟩
    · exact ⟨by simp [hh], fun _ => by simp [hh]⟩
  · -- holding the product: the worker may deposit it
    have hs0 : w.steps_remaining = 0 := by
      by_contra hs
      have h2 := (hsteps hs).1
      rw [hh] at h2
      simp at h2
    cases hbz : bz
    · by_cases hsl : sl = Item.EMPTY
      · subst hsl
        simp [Worker.tickLocal, WorkerSt.have_product, WorkerSt.need_a_and_b,
          WorkerSt.need_a, WorkerSt.need_b, WorkerSt.can_build, Workstation.putLocal,
          Worker.tick_build, WorkerInv, StInvL, hh, hs0]
      · simp [Worker.tickLocal, WorkerSt.have_product, WorkerSt.need_a_and_b,
          WorkerSt.need_a, WorkerSt.need_b, WorkerSt.can_build, Workstation.putLocal,
          Worker.tick_build, WorkerInv, StInvL, hh, hs0, hsl]
    · simp only [Worker.tickLocal, WorkerSt.have_product, WorkerSt.need_a_and_b,
        WorkerSt.need_a, WorkerSt.need_b, WorkerSt.can_build, Workstation.putLocal,
        Worker.tick_build, hh]
      simp [WorkerInv, StInvL, hh, hs0, hbz]
      exact hst hbz

lemma stationLocal_inv (t b : WorkerSt) (bz : Bool) (sl : Item)
    (ht : WorkerInv t) (hb : WorkerInv b) (hst : StInvL bz sl) :
    WorkerInv (stationLocal t b bz sl).1 ∧ WorkerInv (stationLocal t b bz sl).2.1 := by
  have h1 := tickLocal_inv t bz sl ht hst
  have h2 := tickLocal_inv b _ _ hb h1.2
  exact ⟨h1.1, h2.1⟩

lemma workersPhaseLocal_inv :
    ∀ (ts bs : List WorkerSt) (busys : List Bool) (slots : List Item),
    (∀ w ∈ ts, WorkerInv w) → (∀ w ∈ bs, WorkerInv w) → (∀ x ∈ busys, x = false) →
    (∀ w ∈ (workersPhaseLocal ts bs busys slots).1, WorkerInv w) ∧
    (∀ w ∈ (workersPhaseLocal ts bs busys slots).2.1, WorkerInv w) := by
  intro ts
  induction ts with
  | nil =>
    intro bs busys slots _ _ _
    constructor <;> (intro w hw; simp [workersPhaseLocal] at hw)
  | cons t ts ih =>
    intro bs busys slots hts hbs hbusys
    cases bs with
    | nil => constructor <;> (intro w hw; simp [workersPhaseLocal] at hw)
    | cons b bs' =>
    cases busys with
    | nil => constructor <;> (intro w hw; simp [workersPhaseLocal] at hw)
    | cons bz bzs =>
    cases slots with
    | nil => constructor <;> (intro w hw; simp [workersPhaseLocal] at hw)
    | cons sl sls =>
    have hstinv : StInvL bz sl := by
      intro hfalse
      rw [hbusys bz (by simp)] at hfalse
      cases hfalse
    have hstat := stationLocal_inv t b bz sl (hts t (by simp)) (hbs b (by simp)) hstinv
    have hrest := ih bs' bzs sls (fun w hw => hts w (by simp [hw]))
      (fun w hw => hbs w (by simp [hw])) (fun x hx => hbusys x (by simp [hx]))
    constructor
    · intro w hw
      simp only [workersPhaseLocal, List.mem_cons] at hw
      rcases hw with hw | hw
      · rw [hw]; exact hstat.1
      · exact hrest.1 w hw
    · intro w hw
      simp only [workersPhaseLocal, List.mem_cons] at hw
      rcases hw with hw | hw
      · rw [hw]; exact hstat.2
      · exact hrest.2 w hw

lemma workersPhaseLocal_lengths :
    ∀ (ts bs : List WorkerSt) (busys : List Bool) (slots : List Item),
    ts.length = busys.length → bs.length = busys.length → busys.length ≤ slots.length →
    (workersPhaseLocal ts bs busys slots).1.length = ts.length ∧
    (workersPhaseLocal ts bs busys slots).2.1.length = bs.length ∧
    (workersPhaseLocal ts bs busys slots).2.2.1.length = busys.length ∧
    (workersPhaseLocal ts bs busys slots).2.2.2.length = slots.length := by
  intro ts
  induction ts with
  | nil =>
    intro bs busys slots h1 h2 h3
    have hbusys : busys = [] := by
      cases busys with
      | nil => rfl
      | cons x l => simp at h1
    subst hbusys
    have hbs : bs = [] := by
      cases bs with
      | nil => rfl
      | cons x l => simp at h2
    subst hbs
    simp [workersPhaseLocal]
  | cons t ts ih =>
    intro bs busys slots h1 h2 h3
    cases busys with
    | nil => simp at h1
    | cons bz bzs =>
    cases bs with
    | nil => simp at h2
    | cons b bs' =>
    cases slots with
    | nil => simp at h3
    | cons sl sls =>
    have hr := ih bs' bzs sls (by simpa using h1) (by simpa using h2) (by simpa using h3)
    simp only [workersPhaseLocal, List.length_cons]
    exact ⟨by rw [hr.1], by rw [hr.2.1], by rw [hr.2.2.1], by rw [hr.2.2.2]⟩

lemma siminv_init : SimInv Simulator.init := by
  refine ⟨⟨rfl, rfl, rfl, rfl, by decide, ?_⟩, ?_, ?_⟩
  · intro i h
    have h3 : i < 3 := by simpa using h
    interval_cases i <;> rfl
  · intro w hw
    have hwi : w = Worker.init := List.eq_of_mem_replicate hw
    subst hwi
    exact ⟨Or.inl rfl, fun h => absurd rfl h⟩
  · intro w hw
    have hwi : w = Worker.init := List.eq_of_mem_replicate hw
    subst hwi
    exact ⟨Or.inl rfl, fun h => absurd rfl h⟩

lemma sim_tick_preserves (s : SimState) (p : Item) (hs : SimInv s) :
    ∀ s2, Simulator.tick s p = some s2 → SimInv s2 := by
  intro s2 htick
  obtain ⟨hwf, htop, hbot⟩ := hs
  obtain ⟨consumed, hlast, heq⟩ := sim_tick_eq s p hwf
  rw [heq] at htick
  have hs2 := Option.some.inj htick
  subst hs2
  obtain ⟨hlen, hslen, htlen, hblen, hposlen, hpos⟩ := hwf
  have hdrop : (p :: s.conveyor.items.dropLast).length = s.conveyor.len := by
    simp [List.length_dropLast]
    omega
  have hlens := workersPhaseLocal_lengths s.top_workers s.bottom_workers
    (List.replicate s.stations.length false) (p :: s.conveyor.items.dropLast)
    (by simp [htlen, hslen]) (by simp [hblen, hslen])
    (by rw [hdrop]; simp [hslen])
  have hinvs := workersPhaseLocal_inv s.top_workers s.bottom_workers
    (List.replicate s.stations.length false) (p :: s.conveyor.items.dropLast)
    htop hbot (fun x hx => List.eq_of_mem_replicate hx)
  refine ⟨⟨?_, ?_, ?_, ?_, ?_, ?_⟩, ?_, ?_⟩
  · rw [hlens.2.2.2]
    exact hdrop
  · simp only [List.length_zipWith, List.length_map, hlens.2.2.1]
    simp [hslen]
  · simpa [htlen] using hlens.1
  · simpa [hblen] using hlens.2.1
  · exact hposlen
  · intro i h
    have hi3 : i < s.stations.length := by
      simp only [List.length_zipWith, List.length_map, hlens.2.2.1,
        List.length_replicate, min_self] at h
      exact h
    simp only [List.get_eq_getElem, List.getElem_zipWith, List.getElem_map, Workstation.tick]
    have h4 := hpos i hi3
    simpa using h4
  · exact hinvs.1
  · exact hinvs.2

lemma reachable_inv (s : SimState) (h : Reachable s) : SimInv s := by
  induction h with
  | init => exact siminv_init
  | step hr htick ih => exact sim_tick_preserves _ _ ih _ htick

lemma workerinv_claim (w : WorkerSt) (h : WorkerInv w) : WorkerClaim w := by
  obtain ⟨hh, hs⟩ := h
  rcases hh with hh | hh | hh | hh | hh | hh <;>
    exact ⟨by rw [hh]; decide, by rw [hh]; decide, by rw [hh]; decide, by rw [hh]; decide, hs⟩

lemma tick_build_none (w : WorkerSt)
    (h : (none : Option Item) ∈ (Worker.tick_build w).hands) :
    (none : Option Item) ∈ w.hands := by
  unfold Worker.tick_build at h
  split_ifs at h
  · exact h
  · simp only [List.mem_append] at h
    rcases h with h | h
    · exact List.mem_of_mem_erase (List.mem_of_mem_erase h)
    · simp at h
  · exact h

lemma tick_no_new_none (w : WorkerSt) (ws : Workstation) (belt : List Item)
    (hst : ws.busy = true →
      Workstation.peek ws belt = Item.EMPTY ∨ Workstation.peek ws belt = Item.PRODUCT)
    (h : (none : Option Item) ∈ (Worker.tick w ws belt).1.hands) :
    (none : Option Item) ∈ w.hands := by
  by_cases hbz : ws.busy = true
  · have hpk : Workstation.peek ws belt ≠ Item.A ∧ Workstation.peek ws belt ≠ Item.B := by
      rcases hst hbz with h2 | h2 <;> rw [h2] <;> exact ⟨by decide, by decide⟩
    have hput : Workstation.put ws belt Item.PRODUCT = (false, ws, belt) := by
      simp [Workstation.put, hbz]
    have hsteps : Worker.tick w ws belt =
        if w.can_build then (Worker.tick_build w, ws, belt) else (w, ws, belt) := by
      unfold Worker.tick
      rw [hput]
      simp [hpk.1, hpk.2]
    rw [hsteps] at h
    by_cases hcb : w.can_build = true
    · rw [if_pos hcb] at h
      exact tick_build_none w h
    · rw [if_neg hcb] at h
      exact h
  · have hbz' : ws.busy = false := by simpa using hbz
    have htake : Workstation.take ws belt =
        (some (belt.getD ws.pos Item.EMPTY), { ws with busy := true },
          belt.set ws.pos Item.EMPTY) := by
      simp [Workstation.take, hbz', Conveyor.take]
    unfold Worker.tick at h
    rw [htake] at h
    dsimp only at h
    split_ifs at h <;>
      first
        | exact h
        | exact List.mem_of_mem_erase h
        | simpa using h
        | (replace h := tick_build_none _ h
           first
             | exact h
             | exact List.mem_of_mem_erase h
             | simpa using h)

lemma run_append (s : SimState) (ps qs : List Item) :
    Simulator.run s (ps ++ qs) =
      (Simulator.run s ps).bind (fun s2 => Simulator.run s2 qs) := by
  induction ps generalizing s with
  | nil => simp [Simulator.run]
  | cons p ps ih =>
    simp only [List.cons_append, Simulator.run]
    cases htick : Simulator.tick s p with
    | none => simp
    | some s2 => simpa using ih s2

/-! ### Simulator-level claims -/

/-- **C4.** In every reachable simulator state every worker's hands hold
only component/product tokens (never the busy sentinel or `EMPTY`), a
product is held alone, at most one of each component kind is held, and the
countdown is non-sentinel only while both components are held. -/
theorem worker_hands_invariant (s : SimState) (hs : Reachable s) :
    ∀ w, w ∈ s.top_workers ∨ w ∈ s.bottom_workers → WorkerClaim w := by
  intro w hw
  have hinv := reachable_inv s hs
  rcases hw with hw | hw
  · exact workerinv_claim w (hinv.2.1 w hw)
  · exact workerinv_claim w (hinv.2.2 w hw)

/-- Witness for C4 at the initial state's first top worker. -/
theorem worker_hands_invariant_witness :
    Worker.init.hands.count (some Item.A) ≤ 1 :=
  (worker_hands_invariant Simulator.init Reachable.init Worker.init
    (Or.inl (by decide))).2.2.1

/-- **C5.** A conveyor whose slot count equals its configured (positive)
length ticks successfully: exactly the tail item is consumed, the produced
item enters at the head, and the slot count is again the configured length
— so the fatal assertion never fires; in particular every `Simulator.tick`
from a reachable state succeeds. -/
theorem conveyor_conservation :
    (∀ (cv : Conveyor) (produced : Item), cv.items.length = cv.len → 0 < cv.len →
      ∃ (cv2 : Conveyor) (consumed : Item),
        cv.tick produced = some (cv2, consumed) ∧
        cv2.items.length = cv.len ∧ cv2.len = cv.len ∧
        cv2.items = produced :: cv.items.dropLast ∧
        cv.items.getLast? = some consumed) ∧
    (∀ s, Reachable s → ∀ produced, ∃ s2, Simulator.tick s produced = some s2) := by
  constructor
  · intro cv produced hlen hpos
    have hne : cv.items ≠ [] := by
      intro h0
      rw [h0] at hlen
      simp at hlen
      omega
    refine ⟨{ len := cv.len, items := produced :: cv.items.dropLast },
      cv.items.getLast hne, ?_, ?_, rfl, rfl, List.getLast?_eq_getLast _ hne⟩
    · unfold Conveyor.tick
      rw [List.getLast?_eq_getLast _ hne]
      dsimp only
      rw [if_pos (by simp [List.length_dropLast]; omega)]
    · simp [List.length_dropLast]
      omega
  · intro s hs produced
    have hinv := reachable_inv s hs
    obtain ⟨consumed, hlast, heq⟩ := sim_tick_eq s produced hinv.1
    exact ⟨_, heq⟩

/-- Witness for C5 on a one-slot conveyor and on the initial simulator. -/
theorem conveyor_conservation_witness :
    (∃ (cv2 : Conveyor) (consumed : Item),
      Conveyor.tick { len := 1, items := [Item.B] } Item.A = some (cv2, consumed) ∧
      cv2.items.length = 1 ∧ cv2.len = 1 ∧ cv2.items = [Item.A] ∧
      ([Item.B] : List Item).getLast? = some consumed) ∧
    (∃ s2, Simulator.tick Simulator.init Item.A = some s2) := by
  constructor
  · have h := conveyor_conservation.1 { len := 1, items := [Item.B] } Item.A rfl (by decide)
    simpa using h
  · exact conveyor_conservation.2 Simulator.init Reachable.init Item.A

/-- **C9.** `Simulator.tick` is exactly: conveyor advance first (the
consumer receives the old tail, the workers see the shifted belt), then
all busy flags reset to `false`, then one independent update per station
in which the front (top) worker acts before the back (bottom) worker
(`stationLocal`); and `Simulator.run` executes one `tick` per produced
item in sequence, with no early termination. -/
theorem simulator_tick_order :
    (∀ (s : SimState) (p : Item), WF s →
      ∃ consumed, s.conveyor.items.getLast? = some consumed ∧
        Simulator.tick s p = some
          { conveyor :=
              { len := s.conveyor.len,
                items := (workersPhaseLocal s.top_workers s.bottom_workers
                  (List.replicate s.stations.length false)
                  (p :: s.conveyor.items.dropLast)).2.2.2 },
            stations := List.zipWith (fun (st : Workstation) bz => { pos := st.pos, busy := bz })
              (s.stations.map Workstation.tick)
              (workersPhaseLocal s.top_workers s.bottom_workers
                (List.replicate s.stations.length false) (p :: s.conveyor.items.dropLast)).2.2.1,
            top_workers := (workersPhaseLocal s.top_workers s.bottom_workers
              (List.replicate s.stations.length false) (p :: s.conveyor.items.dropLast)).1,
            bottom_workers := (workersPhaseLocal s.top_workers s.bottom_workers
              (List.replicate s.stations.length false) (p :: s.conveyor.items.dropLast)).2.1,
            consumer := s.consumer.consume consumed }) ∧
    (∀ (s : SimState) (ps qs : List Item),
      Simulator.run s (ps ++ qs) =
        (Simulator.run s ps).bind (fun s2 => Simulator.run s2 qs)) :=
  ⟨fun s p hwf => sim_tick_eq s p hwf, run_append⟩

/-- Witness for C9 at the initial state and a concrete two-tick run. -/
theorem simulator_tick_order_witness :
    Simulator.run Simulator.init ([Item.A] ++ [Item.B]) =
      (Simulator.run Simulator.init [Item.A]).bind (fun s2 => Simulator.run s2 [Item.B]) ∧
    (Simulator.tick Simulator.init Item.A).isSome = true := by
  refine ⟨simulator_tick_order.2 Simulator.init [Item.A] [Item.B], ?_⟩
  obtain ⟨c, hc, heq⟩ := simulator_tick_order.1 Simulator.init Item.A siminv_init.1
  rw [heq]
  rfl

/-- **C10.** In every reachable state no worker's hands contain the busy
sentinel `none`; and whenever a worker is ticked against a station whose
busy flag can only be set with the slot already cleared or product-filled
(the situation every mid-phase station is in), its unguarded
`hands.append(take())` never adds the sentinel. -/
theorem take_never_returns_busy :
    (∀ s, Reachable s → ∀ w, w ∈ s.top_workers ∨ w ∈ s.bottom_workers →
      (none : Option Item) ∉ w.hands) ∧
    (∀ (w : WorkerSt) (ws : Workstation) (belt : List Item),
      (ws.busy = true →
        Workstation.peek ws belt = Item.EMPTY ∨ Workstation.peek ws belt = Item.PRODUCT) →
      (none : Option Item) ∈ (Worker.tick w ws belt).1.hands →
      (none : Option Item) ∈ w.hands) := by
  constructor
  · intro s hs w hw hnone
    have hinv := reachable_inv s hs
    have hworker : WorkerInv w := by
      rcases hw with hw | hw
      exacts [hinv.2.1 w hw, hinv.2.2 w hw]
    rcases hworker.1 with hh | hh | hh | hh | hh | hh <;> rw [hh] at hnone <;> simp at hnone
  · exact tick_no_new_none

/-- Witness for C10 at the initial state's first top worker. -/
theorem take_never_returns_busy_witness :
    (none : Option Item) ∉ Worker.init.hands :=
  take_never_returns_busy.1 Simulator.init Reachable.init Worker.init (Or.inl (by decide))

end ConveyorSim
